import Mathlib

/-!
Verification development for the Bot-Helper repository's file organizer
(`src/bot_helper/bot_helper/sort_files.py`).

The Python module is shallowly embedded: pure helpers become Lean functions,
the filesystem becomes an explicit state record, and Python exceptions become
`Option`/error-outcome values.  Each definition carries the name of the source
function it embeds.
-/

namespace BotHelper

/-- ASCII alphanumeric test: the character class `[a-zA-Z0-9]` used by the
regular expression in `FileOrganizer.normalize`. -/
def isAsciiAlnum (c : Char) : Bool :=
  (97 ≤ c.toNat && c.toNat ≤ 122) || (65 ≤ c.toNat && c.toNat ≤ 90) ||
    (48 ≤ c.toNat && c.toNat ≤ 57)

/-- Characters allowed in a fully normalized token: `[a-z0-9_]`. -/
def isNormalChar (c : Char) : Bool :=
  (97 ≤ c.toNat && c.toNat ≤ 122) || (48 ≤ c.toNat && c.toNat ≤ 57) || c.toNat = 95

/-- One character of Python's `str.lower`.  The organizer only applies `lower`
to ASCII material (regex output, file extensions), where Python's `lower` is
exactly the ASCII case fold modelled here; other characters pass through. -/
def pyLowerChar (c : Char) : Char :=
  if 65 ≤ c.toNat && c.toNat ≤ 90 then Char.ofNat (c.toNat + 32) else c

/-- Python's `str.lower`, applied character by character. -/
def pyLower (s : String) : String := ⟨s.data.map pyLowerChar⟩

/-- Index of the last `'.'` in a character list (`str.rfind('.')`), if any. -/
def findLastDot : List Char → Option Nat
  | [] => none
  | c :: cs =>
    match findLastDot cs with
    | some i => some (i + 1)
    | none => if c == '.' then some 0 else none

/-- Model of `pathlib.PurePath.suffix` on a file name: the part from the last dot,
provided that dot is neither the first nor the last character; `""` otherwise. -/
def pySuffix (name : String) : String :=
  match findLastDot name.data with
  | some i => if 0 < i ∧ i < name.data.length - 1 then ⟨name.data.drop i⟩ else ""
  | none => ""

/-- Model of `pathlib.PurePath.stem` on a file name: the name without its suffix. -/
def pyStem (name : String) : String :=
  match findLastDot name.data with
  | some i => if 0 < i ∧ i < name.data.length - 1 then ⟨name.data.take i⟩ else name
  | none => name

/-- Character table of the third-party `transliterate` package for
`translit(text, "uk", reversed=True)`: Ukrainian Cyrillic letters map to Latin
sequences; every character outside the table passes through unchanged.  The
exact Latin spellings are those of the package's Ukrainian pack; no theorem
below depends on them, only on the table touching no ASCII character. -/
def ukTable : List (Char × String) :=
  [('а', "a"), ('б', "b"), ('в', "v"), ('г', "h"), ('ґ', "g"), ('д', "d"),
   ('е', "e"), ('є', "je"), ('ж', "zh"), ('з', "z"), ('и', "y"), ('і', "i"),
   ('ї', "ji"), ('й', "j"), ('к', "k"), ('л', "l"), ('м', "m"), ('н', "n"),
   ('о', "o"), ('п', "p"), ('р', "r"), ('с', "s"), ('т', "t"), ('у', "u"),
   ('ф', "f"), ('х', "kh"), ('ц', "ts"), ('ч', "ch"), ('ш', "sh"),
   ('щ', "shch"), ('ь', ""), ('ю', "ju"), ('я', "ja"),
   ('А', "A"), ('Б', "B"), ('В', "V"), ('Г', "H"), ('Ґ', "G"), ('Д', "D"),
   ('Е', "E"), ('Є', "Je"), ('Ж', "Zh"), ('З', "Z"), ('И', "Y"), ('І', "I"),
   ('Ї', "Ji"), ('Й', "J"), ('К', "K"), ('Л', "L"), ('М', "M"), ('Н', "N"),
   ('О', "O"), ('П', "P"), ('Р', "R"), ('С', "S"), ('Т', "T"), ('У', "U"),
   ('Ф', "F"), ('Х', "Kh"), ('Ц', "Ts"), ('Ч', "Ch"), ('Ш', "Sh"),
   ('Щ', "Shch"), ('Ь', ""), ('Ю', "Ju"), ('Я', "Ja")]

/-- Transliteration of one character under the Ukrainian reversed table. -/
def ukCharMap (c : Char) : String :=
  match ukTable.lookup c with
  | some t => t
  | none => String.singleton c

/-- Model of `translit(text, "uk", reversed=True)` of the `transliterate` package,
modelled character by character over `ukTable`. -/
def translit_uk (s : String) : String :=
  ⟨(s.data.map fun c => (ukCharMap c).data).flatten⟩

/-- The regex substitution `re.sub(r"[^a-zA-Z0-9]", "_", s)`: every character
outside `[A-Za-z0-9]` becomes a single underscore. -/
def subUnderscore (s : String) : String :=
  ⟨s.data.map fun c => if isAsciiAlnum c then c else '_'⟩

/-- Embeds `FileOrganizer.normalize`: transliterate, replace every non-alphanumeric
character with `_`, lowercase the result. -/
def normalize (text : String) : String :=
  pyLower (subUnderscore (translit_uk text))

/-- The category table assigned by `FileOrganizer.__init__` to
`self.categories`, in insertion order. -/
def categories : List (String × List String) :=
  [("Audio", [".mp3", ".wav", ".ogg", ".amr"]),
   ("Docs", [".doc", ".docx", ".txt", ".pdf", ".xlsx", ".pptx"]),
   ("Images", [".jpeg", ".png", ".jpg", ".svg"]),
   ("Video", [".avi", ".mp4", ".mov", ".mkv"]),
   ("Archives", [".zip", ".gz", ".tar", ".rar"])]

/-- Embeds `FileOrganizer.get_category`, as a function of the file's suffix
(`file.suffix` of pathlib): lowercase the suffix, return the first category of
`self.categories` whose extension list contains it, else `"Other"`. -/
def get_category (suffix : String) : String :=
  let ext := pyLower suffix
  match categories.find? (fun p => p.2.contains ext) with
  | some p => p.1
  | none => "Other"

/-- A filesystem path, as a list of components. -/
abbrev FsPath := List String

/-- What the model records about a file on disk.  `content` identifies the
file's bytes; `corrupt` and `members` describe the outcome the archive
decoders would produce for it: a corrupt entry makes `rarfile` /
`shutil.unpack_archive` raise, otherwise extraction writes one file per
member name. -/
structure FileInfo where
  content : Nat := 0
  corrupt : Bool := false
  members : List String := []
deriving DecidableEq, Repr

/-- The filesystem: the set of directories and, for each file, its info. -/
structure FS where
  dirs : List FsPath
  files : List (FsPath × FileInfo)
deriving DecidableEq, Repr

def FS.lookupFile (fs : FS) (p : FsPath) : Option FileInfo :=
  fs.files.lookup p

/-- Model of `Path.exists()`: true when a directory or a file sits at `p`. -/
def FS.pathExists (fs : FS) (p : FsPath) : Bool :=
  fs.dirs.contains p || (fs.files.lookup p).isSome

/-- The nonempty initial segments of a path, shortest first. -/
def ancestors (p : FsPath) : List FsPath :=
  (List.range p.length).map fun i => p.take (i + 1)

/-- Model of `Path.mkdir(parents=True)`: create the directory and its missing
ancestors. -/
def FS.mkdirParents (fs : FS) (p : FsPath) : FS :=
  { fs with dirs := (ancestors p).filter (fun q => !fs.pathExists q) ++ fs.dirs }

/-- Model of `Path.mkdir(exist_ok=True)`: create the directory unless it already
exists.  (Python would raise `FileNotFoundError` on a missing parent; the
organizer's claims never exercise that case and it is not modelled.) -/
def FS.mkdirExistOk (fs : FS) (p : FsPath) : FS :=
  if fs.dirs.contains p then fs else { fs with dirs := p :: fs.dirs }

/-- The final component of a path: `Path.name`. -/
def lastName (p : FsPath) : String := p.getLastD ""

/-- Strict containment: `p` lies strictly inside `root`. -/
def pathUnder (root p : FsPath) : Bool :=
  root.length < p.length && root == p.take root.length

/-- Render a path for a printed message. -/
def pathStr (p : FsPath) : String := String.intercalate "/" p

/-- Embeds `FileOrganizer.move_file(file, category)`; `dst` is
`self.destination_folder`.  Creates the category directory on demand, renames
the file to `normalize(stem) + suffix`, and moves it unless the target path
already exists.  (`Path.replace` on a vanished source would raise; the
organizer only calls this on files just enumerated, so the missing-source
case is modelled as a no-op.) -/
def move_file (dst : FsPath) (fs : FS) (file : FsPath) (category : String) : FS :=
  let target_dir := dst ++ [category]
  let fs1 := if fs.pathExists target_dir then fs else fs.mkdirParents target_dir
  let new_filename := normalize (pyStem (lastName file)) ++ pySuffix (lastName file)
  let new_path := target_dir ++ [new_filename]
  if fs1.pathExists new_path then fs1
  else
    match fs1.lookupFile file with
    | some info =>
      { fs1 with files := (new_path, info) :: fs1.files.filter fun e => e.1 != file }
    | none => fs1

/-- Embeds `FileOrganizer.organize_files`: enumerate every file under the source
folder (`glob("**/*")` keeping `is_file()` entries), classify each by its
suffix and move it.  The candidate list is materialized from the initial
state; pathlib's lazy glob over the mutating tree is not modelled (no claim
depends on the enumeration order). -/
def organize_files (src dst : FsPath) (fs : FS) : FS :=
  (fs.files.filter fun e => pathUnder src e.1).foldl
    (fun acc e => move_file dst acc e.1 (get_category (pySuffix (lastName e.1)))) fs

/-- Extraction of one archive into `subdir`, the shared shape of
`rarfile.RarFile.extractall` and `shutil.unpack_archive` followed by
`archive_path.unlink()`: a corrupt entry raises (`rarfile.Error` /
`shutil.ReadError`), which the caller's loop catches and logs, leaving the
archive in place; otherwise the members are written under `subdir` and the
archive file is removed. -/
def extractArchive (fs : FS) (log : List String) (p : FsPath) (subdir : FsPath)
    (info : FileInfo) : FS × List String :=
  if info.corrupt then
    (fs, log ++ ["Error extracting " ++ pathStr p, "Skipping file: " ++ pathStr p])
  else
    ({ fs with files := (info.members.map fun m => (subdir ++ [m], {}))
        ++ fs.files.filter fun e => e.1 != p }, log)

/-- One iteration of the loop in `FileOrganizer.extract_and_move_archives`
for glob candidate `p`; `root` is `self.root_dir`.  The subfolder named after
the candidate's stem is created (`mkdir(exist_ok=True)`) before any suffix
check; only the two archive branches extract and unlink. -/
def extractStep (root : FsPath) (st : FS × List String) (p : FsPath) : FS × List String :=
  let (fs, log) := st
  let archive_subdir := root ++ ["Archives", pyStem (lastName p)]
  let fs1 := fs.mkdirExistOk archive_subdir
  let sfx := pyLower (pySuffix (lastName p))
  if sfx == ".rar" then
    match fs1.lookupFile p with
    | some info => extractArchive fs1 log p archive_subdir info
    | none => (fs1, log)
  else if [".zip", ".gz", ".tar"].contains sfx then
    match fs1.lookupFile p with
    | some info => extractArchive fs1 log p archive_subdir info
    | none => (fs1, log)
  else (fs1, log)

/-- The matches of `self.root_dir.glob("**/*.*")`: every file strictly under
`root` whose final name contains a dot (pathlib's `*.*` matches any name
containing `.`; a directory with a dotted name would also match but carries
no archive data and is not modelled as a candidate). -/
def globDotStar (root : FsPath) (fs : FS) : List FsPath :=
  ((fs.files.filter fun e => pathUnder root e.1 && (lastName e.1).data.contains '.').map
    fun e => e.1)

/-- The body of `FileOrganizer.extract_and_move_archives`, with
`self.root_dir` passed explicitly as `root` (the attribute read happens at
entry; see `FileOrganizer.organize`).  Returns the filesystem and the printed
error lines. -/
def extract_and_move_archives (root : FsPath) (fs : FS) : FS × List String :=
  (globDotStar root fs).foldl (extractStep root) (fs, [])

/-- The object state built by `FileOrganizer.__init__`: it assigns
`source_folder`, `destination_folder` and `categories`, and never assigns
`root_dir` — the unassigned Python attribute is modelled as `none`, and an
attribute read on `none` is an `AttributeError`. -/
structure FileOrganizer where
  source_folder : FsPath
  destination_folder : FsPath
  categories : List (String × List String)
  root_dir : Option FsPath
deriving DecidableEq, Repr

/-- Embeds `FileOrganizer.__init__(source_folder, destination_folder)`. -/
def FileOrganizer.init (source_folder destination_folder : FsPath) : FileOrganizer :=
  { source_folder := source_folder, destination_folder := destination_folder,
    categories := BotHelper.categories, root_dir := none }

/-- The phases of `FileOrganizer.organize`, in order. -/
inductive Phase where
  | filesMoved
  | archivesExtracted
  | foldersPruned
  | allOkPrinted
deriving DecidableEq, Repr

/-- Embeds `FileOrganizer.organize`: run `organize_files`, then
`extract_and_move_archives` (whose body begins by reading `self.root_dir`),
then `remove_empty_folders()` whose default `None` argument makes it read
`self.root_dir` too, then print `"All ok"`.  Returns the completed phases and
the uncaught exception, if any.  The pruning phase's directory mutation is
embedded on the tree view (`pruneChildren` below); here only its completion
is recorded, since the phase is unreachable from `FileOrganizer.init`
instances (`root_dir` is always `none`). -/
def FileOrganizer.organize (o : FileOrganizer) (fs : FS) : List Phase × Option String :=
  let fs1 := organize_files o.source_folder o.destination_folder fs
  match o.root_dir with
  | none => ([Phase.filesMoved], some "AttributeError")
  | some root =>
    let _ := extract_and_move_archives root fs1
    ([Phase.filesMoved, Phase.archivesExtracted, Phase.foldersPruned,
      Phase.allOkPrinted], none)

/-- The observable outcome of running `main`. -/
inductive MainOutcome where
  | printedError (msg : String)
  | uncaught (exc : String)
  | completedAllOk
deriving DecidableEq, Repr

/-- Calling `FileOrganizer(...)` with a list of positional arguments:
`__init__` declares exactly two required parameters (`source_folder`,
`destination_folder`), neither with a default value, so any other arity
raises `TypeError`. -/
def callFileOrganizer (args : List FsPath) : Except String FileOrganizer :=
  match args with
  | [src, dst] => Except.ok (FileOrganizer.init src dst)
  | _ => Except.error "TypeError"

/-- Embeds `main`: parse the one positional path argument (`pathValid` models
whether `Path(args.path)` raises `ValueError`, which `main` catches and
prints), check existence, construct the organizer passing only `path`, and
run `organize`. -/
def main (fs : FS) (pathValid pathExists : Bool) (path : FsPath) : MainOutcome :=
  if !pathValid then MainOutcome.printedError "Error: invalid path"
  else if !pathExists then MainOutcome.printedError "Error: Folder does not exist"
  else
    match callFileOrganizer [path] with
    | Except.error e => MainOutcome.uncaught e
    | Except.ok o =>
      match o.organize fs with
      | (_, some e) => MainOutcome.uncaught e
      | (_, none) => MainOutcome.completedAllOk

/-- A directory tree: the view of the filesystem that
`FileOrganizer.remove_empty_folders` traverses with `iterdir()`. -/
inductive Node where
  | file (name : String) (content : Nat) : Node
  | dir (name : String) (children : List Node) : Node

/-- The loop body of `FileOrganizer.remove_empty_folders` applied to the
entries of one directory: recurse into each child directory, then remove it
with `rmdir()` if it has no entries left; files are untouched. -/
def pruneChildren : List Node → List Node
  | [] => []
  | Node.file n c :: rest => Node.file n c :: pruneChildren rest
  | Node.dir n cs :: rest =>
    let cs1 := pruneChildren cs
    if cs1.isEmpty then pruneChildren rest
    else Node.dir n cs1 :: pruneChildren rest

/-- Embeds `FileOrganizer.remove_empty_folders(root_path)` for an explicit root: the
body iterates over the root's entries only, so the root node itself is never
removed. -/
def remove_empty_folders : Node → Node
  | Node.file n c => Node.file n c
  | Node.dir n cs => Node.dir n (pruneChildren cs)

/-- No directory anywhere in the forest has zero entries. -/
def noEmptyDirs : List Node → Bool
  | [] => true
  | Node.file _ _ :: rest => noEmptyDirs rest
  | Node.dir _ cs :: rest => !cs.isEmpty && noEmptyDirs cs && noEmptyDirs rest

/-- A concrete collision: `dest/Docs/a.txt` already exists, so moving
`src/A.txt` (normalized name `a.txt`) into Docs is skipped. -/
def fsColl : FS :=
  { dirs := [["dest"], ["dest", "Docs"]],
    files := [(["dest", "Docs", "a.txt"], {}), (["src", "A.txt"], { content := 1 })] }

/-- A Cyrillic stem with an uppercase extension: the stem is transliterated
and lowercased, the `.TXT` suffix survives verbatim. -/
def fsMove : FS :=
  { dirs := [["dest"]], files := [(["src", "Файл.TXT"], { content := 7 })] }

/-- A corrupt zip sitting in the Archives category. -/
def fsBad : FS :=
  { dirs := [["r"], ["r", "Archives"]],
    files := [(["r", "Archives", "bad.zip"], { corrupt := true })] }

/-- A non-archive file with a dotted name inside the Archives directory. -/
def fsNotes : FS :=
  { dirs := [["home"], ["home", "Archives"]],
    files := [(["home", "Archives", "notes.txt"], {})] }

/-! ## Helper lemmas -/

theorem find?_first_of_disjoint (l : List (String × List String)) (e cat : String)
    (exts : List String) (hmem : (cat, exts) ∈ l) (he : e ∈ exts)
    (hdisj : l.Pairwise fun a b => ∀ x, x ∈ a.2 → x ∉ b.2) :
    l.find? (fun p => p.2.contains e) = some (cat, exts) := by
  induction l with
  | nil => cases hmem
  | cons hd tl ih =>
    obtain ⟨hhd, htl⟩ := List.pairwise_cons.mp hdisj
    rcases List.mem_cons.mp hmem with heq | hmem2
    · subst heq
      exact List.find?_cons_of_pos _ (by simpa [List.elem_iff] using he)
    · rw [List.find?_cons_of_neg, ih hmem2 htl]
      intro hc
      exact hhd _ hmem2 e (by simpa [List.elem_iff] using hc) he

/-! ## C1 and C2: the command-line entry point and the `organize` pipeline -/

/-- C1 (code bug): with a valid, existing path, `main` does not construct the
organizer and print `"All ok"` as the spec describes: `FileOrganizer(path)`
passes one argument to a constructor with two required parameters, so `main`
raises an uncaught `TypeError`.  The two error paths of the claim (invalid
argument, missing folder) do print a human-readable message and return. -/
theorem main_raises_type_error_on_valid_path (fs : FS) (path : FsPath) :
    main fs true true path = MainOutcome.uncaught "TypeError" ∧
    main fs true false path = MainOutcome.printedError "Error: Folder does not exist" ∧
    (∀ b, main fs false b path = MainOutcome.printedError "Error: invalid path") :=
  ⟨rfl, rfl, fun _ => rfl⟩

/-- C2: `__init__` never assigns `root_dir`, so on every instance it builds,
`organize` completes the file-moving phase and then raises `AttributeError`
when `extract_and_move_archives` reads `self.root_dir`; the archive and
pruning phases and the `"All ok"` print are never reached. -/
theorem organize_raises_attribute_error (src dst : FsPath) (fs : FS) :
    (FileOrganizer.init src dst).root_dir = none ∧
    (FileOrganizer.init src dst).organize fs = ([Phase.filesMoved], some "AttributeError") :=
  ⟨rfl, rfl⟩

/-! ## C3: extension classification -/

/-- C3: a file whose lowercased suffix appears in a category's extension list
is classified into that category, whatever the letter case of the suffix; a
suffix in no list — including the empty suffix of an extensionless file —
yields `"Other"`. -/
theorem get_category_correct :
    (∀ cat exts, (cat, exts) ∈ categories → ∀ sfx : String, pyLower sfx ∈ exts →
      get_category sfx = cat) ∧
    (∀ sfx : String, (∀ p ∈ categories, pyLower sfx ∉ p.2) → get_category sfx = "Other") ∧
    get_category "" = "Other" := by
  refine ⟨?_, ?_, rfl⟩
  · intro cat exts hmem sfx hext
    unfold get_category
    dsimp only
    rw [find?_first_of_disjoint categories (pyLower sfx) cat exts hmem hext (by decide)]
  · intro sfx h
    unfold get_category
    dsimp only
    rw [List.find?_eq_none.mpr]
    intro p hp
    simpa [List.elem_iff] using h p hp

/-- Witness for C3: `.MP3` lands in Audio despite its case, `.xyz` and the
empty suffix land in `"Other"`. -/
theorem get_category_correct_witness :
    get_category ".MP3" = "Audio" ∧ get_category ".xyz" = "Other" ∧
    get_category "" = "Other" :=
  ⟨get_category_correct.1 "Audio" [".mp3", ".wav", ".ogg", ".amr"] (by decide) ".MP3"
      (by decide),
   get_category_correct.2.1 ".xyz" (by decide),
   get_category_correct.2.2⟩

/-! ## C8 and C9: the normalizer -/

theorem toNat_Char_ofNat (n : Nat) (h : n.isValidChar) : (Char.ofNat n).toNat = n := by
  rw [Char.ofNat, dif_pos h]
  rfl

theorem eq_underscore_of_toNat (c : Char) (h : c.toNat = 95) : c = '_' := by
  rw [← Char.ofNat_toNat c, h]

theorem pyLowerChar_of_alnum (c : Char) (h : isAsciiAlnum c = true) :
    isNormalChar (pyLowerChar c) = true := by
  unfold isAsciiAlnum at h
  simp only [Bool.or_eq_true, Bool.and_eq_true, decide_eq_true_eq] at h
  unfold pyLowerChar
  split
  next hc =>
    simp only [Bool.and_eq_true, decide_eq_true_eq] at hc
    have hv : Nat.isValidChar (c.toNat + 32) := Or.inl (by omega)
    unfold isNormalChar
    rw [toNat_Char_ofNat _ hv]
    simp only [Bool.or_eq_true, Bool.and_eq_true, decide_eq_true_eq]
    omega
  next hc =>
    simp only [Bool.and_eq_true, decide_eq_true_eq, Classical.not_and_iff_or_not_not,
      Nat.not_le] at hc
    unfold isNormalChar
    simp only [Bool.or_eq_true, Bool.and_eq_true, decide_eq_true_eq]
    omega

/-- The per-character shape of the substitute-then-lowercase stage. -/
theorem normStageChar_normal (c : Char) :
    isNormalChar (if isAsciiAlnum c then pyLowerChar c else '_') = true := by
  by_cases h : isAsciiAlnum c = true
  · rw [if_pos h]
    exact pyLowerChar_of_alnum c h
  · rw [if_neg (by simpa using h)]
    decide

/-- The function `normalize` acts character by character on the transliterated text. -/
theorem normalize_data (s : String) :
    (normalize s).data = (translit_uk s).data.map
      (fun c => if isAsciiAlnum c then pyLowerChar c else '_') := by
  unfold normalize pyLower subUnderscore
  show ((translit_uk s).data.map fun c => if isAsciiAlnum c then c else '_').map pyLowerChar
      = _
  rw [List.map_map]
  apply List.map_congr_left
  intro c _
  by_cases h : isAsciiAlnum c = true
  · simp [Function.comp, h]
  · simp only [Function.comp, Bool.not_eq_true] at h ⊢
    rw [if_neg (by simp [h]), if_neg (by simp [h])]
    decide

/-- Every character `normalize` emits lies in `[a-z0-9_]`. -/
theorem normalize_all_normal (s : String) :
    ∀ c ∈ (normalize s).data, isNormalChar c = true := by
  intro c hc
  rw [normalize_data] at hc
  obtain ⟨d, _, rfl⟩ := List.mem_map.mp hc
  exact normStageChar_normal d

/-- C8: `normalize` is a total function whose output uses only `[a-z0-9_]`;
it rewrites the transliterated text character for character — each character
outside `[A-Za-z0-9]` becomes one underscore, with no collapsing, and the
alphanumerics are lowercased — and the empty string maps to the empty
string. -/
theorem normalize_total_and_normal (s : String) :
    (∀ c ∈ (normalize s).data, isNormalChar c = true) ∧
    (normalize s).data = (translit_uk s).data.map
      (fun c => if isAsciiAlnum c then pyLowerChar c else '_') ∧
    normalize "" = "" :=
  ⟨normalize_all_normal s, normalize_data s, rfl⟩

theorem ukTable_lookup_none_of_ascii (c : Char) (hc : c.toNat ≤ 127) :
    ukTable.lookup c = none := by
  have key : ∀ t : List (Char × String), (∀ p ∈ t, 127 < p.1.toNat) →
      t.lookup c = none := by
    intro t
    induction t with
    | nil => intro _; rfl
    | cons hd tl ih =>
      intro ht
      obtain ⟨k, v⟩ := hd
      rw [List.lookup_cons]
      have hk : 127 < k.toNat := ht (k, v) (List.mem_cons_self _ _)
      have hne : (c == k) = false := by
        apply beq_eq_false_iff_ne.mpr
        intro hckeq
        subst hckeq
        omega
      rw [hne]
      exact ih fun p hp => ht p (List.mem_cons_of_mem _ hp)
  exact key ukTable (by decide)

/-- Transliteration leaves a list of ASCII characters unchanged. -/
theorem translit_fix_ascii (l : List Char) (h : ∀ c ∈ l, c.toNat ≤ 127) :
    (l.map fun c => (ukCharMap c).data).flatten = l := by
  induction l with
  | nil => rfl
  | cons c cs ih =>
    have hc : ukCharMap c = String.singleton c := by
      unfold ukCharMap
      rw [ukTable_lookup_none_of_ascii c (h c (List.mem_cons_self _ _))]
    rw [List.map_cons, List.flatten_cons, hc,
      ih fun d hd => h d (List.mem_cons_of_mem _ hd)]
    rfl

theorem alnum_of_range (c : Char)
    (h1 : 97 ≤ c.toNat ∧ c.toNat ≤ 122 ∨ 48 ≤ c.toNat ∧ c.toNat ≤ 57) :
    isAsciiAlnum c = true := by
  unfold isAsciiAlnum
  simp only [Bool.or_eq_true, Bool.and_eq_true, decide_eq_true_eq]
  omega

/-- The substitute-then-lowercase stage fixes a `[a-z0-9_]` character. -/
theorem normStageChar_fix (c : Char) (hn : isNormalChar c = true) :
    (if isAsciiAlnum c then pyLowerChar c else '_') = c := by
  unfold isNormalChar at hn
  simp only [Bool.or_eq_true, Bool.and_eq_true, decide_eq_true_eq] at hn
  rcases hn with (h1 | h1) | h1
  · rw [if_pos (alnum_of_range c (Or.inl h1))]
    unfold pyLowerChar
    rw [if_neg (by simp only [Bool.and_eq_true, decide_eq_true_eq]; omega)]
  · rw [if_pos (alnum_of_range c (Or.inr h1))]
    unfold pyLowerChar
    rw [if_neg (by simp only [Bool.and_eq_true, decide_eq_true_eq]; omega)]
  · have hc := eq_underscore_of_toNat c h1
    subst hc
    decide

/-- A string already made of `[a-z0-9_]` characters is a fixed point of
`normalize`. -/
theorem normalize_fix_normal (t : String) (h : ∀ c ∈ t.data, isNormalChar c = true) :
    normalize t = t := by
  have hascii : ∀ c ∈ t.data, c.toNat ≤ 127 := by
    intro c hc
    have := h c hc
    unfold isNormalChar at this
    simp only [Bool.or_eq_true, Bool.and_eq_true, decide_eq_true_eq] at this
    omega
  have htr : translit_uk t = t := by
    have : (translit_uk t).data = t.data := by
      unfold translit_uk
      show ((t.data.map fun c => (ukCharMap c).data).flatten) = t.data
      exact translit_fix_ascii t.data hascii
    exact congrArg String.mk this
  have hdata : (normalize t).data = t.data := by
    rw [normalize_data, htr]
    calc t.data.map (fun c => if isAsciiAlnum c then pyLowerChar c else '_')
        = t.data.map id := List.map_congr_left fun c hc => normStageChar_fix c (h c hc)
      _ = t.data := List.map_id _
  exact congrArg String.mk hdata

/-- C9: on a string containing only ASCII alphanumerics and underscores,
`normalize` is idempotent. -/
theorem normalize_idempotent_on_ascii (s : String)
    (h : ∀ c ∈ s.data, isAsciiAlnum c = true ∨ c = '_') :
    normalize (normalize s) = normalize s :=
  let _ := h
  normalize_fix_normal (normalize s) (normalize_all_normal s)

/-- Witness for C9 at the string `"Ab_9"`. -/
theorem normalize_idempotent_on_ascii_witness :
    (∀ c ∈ ("Ab_9" : String).data, isAsciiAlnum c = true ∨ c = '_') ∧
    normalize (normalize "Ab_9") = normalize "Ab_9" :=
  ⟨by decide, normalize_idempotent_on_ascii "Ab_9" (by decide)⟩

/-! ## C7: the empty-directory pruner -/

theorem noEmptyDirs_pruneChildren (l : List Node) : noEmptyDirs (pruneChildren l) = true := by
  induction l using pruneChildren.induct with
  | case1 => simp [pruneChildren, noEmptyDirs]
  | case2 n c rest ih =>
    rw [pruneChildren, noEmptyDirs]
    exact ih
  | case3 n cs rest cs1 hcs ihcs ihrest =>
    rw [pruneChildren, if_pos hcs]
    exact ihrest
  | case4 n cs rest cs1 hcs ihcs ihrest =>
    rw [pruneChildren, if_neg hcs, noEmptyDirs]
    simp only [Bool.and_eq_true, Bool.not_eq_true']
    exact ⟨⟨by simpa using hcs, ihcs⟩, ihrest⟩

/-- C7: pruning with an explicit root processes children before their parent,
the root directory survives even when all its entries are removed, and
afterwards no directory strictly below the root is empty. -/
theorem remove_empty_folders_correct (n : String) (cs : List Node) :
    remove_empty_folders (Node.dir n cs) = Node.dir n (pruneChildren cs) ∧
    noEmptyDirs (pruneChildren cs) = true :=
  ⟨rfl, noEmptyDirs_pruneChildren cs⟩

/-! ## C4 and C10: the file relocator -/

theorem pathExists_of_lookup_isSome (fs : FS) (p : FsPath)
    (h : (fs.lookupFile p).isSome = true) : fs.pathExists p = true := by
  unfold FS.lookupFile at h
  unfold FS.pathExists
  simp [h]

theorem pathExists_mkdirParents_of_longer (fs : FS) (q p : FsPath)
    (hlen : q.length < p.length) (h : (fs.mkdirParents q).pathExists p = true) :
    fs.pathExists p = true := by
  unfold FS.mkdirParents FS.pathExists at *
  simp only [List.contains, List.elem_iff, List.mem_append, List.mem_filter,
    Bool.or_eq_true] at h ⊢
  rcases h with (h | h) | h
  · exfalso
    obtain ⟨hpmem, _⟩ := h
    unfold ancestors at hpmem
    simp only [List.mem_map, List.mem_range] at hpmem
    obtain ⟨i, hi, hpi⟩ := hpmem
    rw [← hpi] at hlen
    simp only [List.length_take] at hlen
    omega
  · exact Or.inl h
  · exact Or.inr h

/-- C4: when a file already sits at the computed target path
`destination/category/normalize(stem)+suffix`, `move_file` leaves every file
untouched — the source is not moved and the target is not overwritten — and
no exception arises (the embedded `move_file` is total). -/
theorem move_file_skips_collision (dst : FsPath) (fs : FS) (file : FsPath)
    (category : String)
    (h : (fs.lookupFile ((dst ++ [category]) ++
        [normalize (pyStem (lastName file)) ++ pySuffix (lastName file)])).isSome = true) :
    (move_file dst fs file category).files = fs.files := by
  have key : ∀ g : FS,
      g = (if fs.pathExists (dst ++ [category]) = true then fs
           else fs.mkdirParents (dst ++ [category])) →
      g.files = fs.files ∧ g.pathExists ((dst ++ [category]) ++
        [normalize (pyStem (lastName file)) ++ pySuffix (lastName file)]) = true := by
    intro g hg
    by_cases hb : fs.pathExists (dst ++ [category]) = true
    · rw [hg, if_pos hb]
      exact ⟨rfl, pathExists_of_lookup_isSome fs _ h⟩
    · rw [hg, if_neg hb]
      exact ⟨rfl, pathExists_of_lookup_isSome _ _ h⟩
  unfold move_file
  dsimp only
  rw [if_pos (key _ rfl).2]
  exact (key _ rfl).1


/-- Witness for C4 on `fsColl`. -/
theorem move_file_skips_collision_witness :
    (fsColl.lookupFile ((["dest"] ++ ["Docs"]) ++
        [normalize (pyStem (lastName ["src", "A.txt"])) ++
          pySuffix (lastName ["src", "A.txt"])])).isSome = true ∧
    (move_file ["dest"] fsColl ["src", "A.txt"] "Docs").files = fsColl.files :=
  ⟨by decide, move_file_skips_collision ["dest"] fsColl ["src", "A.txt"] "Docs" (by decide)⟩

theorem lookup_filter_bne (l : List (FsPath × FileInfo)) (k : FsPath) :
    (l.filter fun e => e.1 != k).lookup k = none := by
  induction l with
  | nil => rfl
  | cons hd tl ih =>
    obtain ⟨k1, v1⟩ := hd
    by_cases hk : k1 = k
    · subst hk
      rw [List.filter_cons_of_neg]
      · exact ih
      · simp
    · rw [List.filter_cons_of_pos]
      · rw [List.lookup_cons]
        have hbeq : (k == k1) = false := beq_eq_false_iff_ne.mpr fun hh => hk hh.symm
        rw [hbeq]
        exact ih
      · simp [hk]

/-- C10: a move that goes through (source present, target free) deletes the
source entry and places the file at the destination category directory under
the name `normalize(stem) ++ suffix`: the stem is normalized while the
original suffix is appended verbatim — neither transliterated nor
lowercased. -/
theorem move_file_rename (dst : FsPath) (fs : FS) (file : FsPath) (category : String)
    (info : FileInfo) (hsrc : fs.lookupFile file = some info)
    (hfree : fs.pathExists ((dst ++ [category]) ++
        [normalize (pyStem (lastName file)) ++ pySuffix (lastName file)]) = false) :
    (move_file dst fs file category).lookupFile ((dst ++ [category]) ++
        [normalize (pyStem (lastName file)) ++ pySuffix (lastName file)]) = some info ∧
    (move_file dst fs file category).lookupFile file = none := by
  have hnefile : (file == (dst ++ [category]) ++
      [normalize (pyStem (lastName file)) ++ pySuffix (lastName file)]) = false := by
    apply beq_eq_false_iff_ne.mpr
    intro heq
    have hs : (fs.lookupFile ((dst ++ [category]) ++
        [normalize (pyStem (lastName file)) ++ pySuffix (lastName file)])).isSome = true := by
      rw [← heq, hsrc]
      rfl
    rw [pathExists_of_lookup_isSome fs _ hs] at hfree
    cases hfree
  unfold move_file
  dsimp only
  by_cases hb : fs.pathExists (dst ++ [category]) = true
  · rw [if_pos hb, if_neg (by simpa using hfree), hsrc]
    constructor
    · exact List.lookup_cons_self
    · show List.lookup file ((_, info) :: _) = none
      rw [List.lookup_cons, hnefile]
      exact lookup_filter_bne fs.files file
  · rw [if_neg hb]
    have hfree2 : ¬((fs.mkdirParents (dst ++ [category])).pathExists ((dst ++ [category]) ++
        [normalize (pyStem (lastName file)) ++ pySuffix (lastName file)]) = true) := by
      intro hcontra
      have := pathExists_mkdirParents_of_longer fs (dst ++ [category]) _
        (by simp) hcontra
      rw [hfree] at this
      cases this
    rw [if_neg hfree2]
    have hsrc2 : (fs.mkdirParents (dst ++ [category])).lookupFile file = some info := hsrc
    rw [hsrc2]
    constructor
    · exact List.lookup_cons_self
    · show List.lookup file ((_, info) :: _) = none
      rw [List.lookup_cons, hnefile]
      exact lookup_filter_bne fs.files file


/-- Witness for C10 on `fsMove`: the file lands at `dest/Docs/fajl.TXT`. -/
theorem move_file_rename_witness :
    fsMove.lookupFile ["src", "Файл.TXT"] = some { content := 7 } ∧
    fsMove.pathExists ((["dest"] ++ ["Docs"]) ++
      [normalize (pyStem (lastName ["src", "Файл.TXT"])) ++
        pySuffix (lastName ["src", "Файл.TXT"])]) = false ∧
    (move_file ["dest"] fsMove ["src", "Файл.TXT"] "Docs").lookupFile
      ((["dest"] ++ ["Docs"]) ++
        [normalize (pyStem (lastName ["src", "Файл.TXT"])) ++
          pySuffix (lastName ["src", "Файл.TXT"])]) = some { content := 7 } ∧
    (move_file ["dest"] fsMove ["src", "Файл.TXT"] "Docs").lookupFile
      ["src", "Файл.TXT"] = none :=
  ⟨by decide, by decide,
    (move_file_rename ["dest"] fsMove ["src", "Файл.TXT"] "Docs" { content := 7 }
      (by decide) (by decide)).1,
    (move_file_rename ["dest"] fsMove ["src", "Файл.TXT"] "Docs" { content := 7 }
      (by decide) (by decide)).2⟩

/-! ## C5 and C6: the archive expander -/

theorem files_mkdirExistOk (fs : FS) (p : FsPath) :
    (fs.mkdirExistOk p).files = fs.files := by
  unfold FS.mkdirExistOk
  split <;> rfl

theorem mkdirExistOk_contains (fs : FS) (p : FsPath) :
    (fs.mkdirExistOk p).dirs.contains p = true := by
  unfold FS.mkdirExistOk
  split
  next h => exact h
  next h => simp

/-- For an archive-suffixed candidate with a file entry, the loop body
reduces to subfolder creation followed by `extractArchive`. -/
theorem extractStep_arch (root : FsPath) (fs : FS) (log : List String) (p : FsPath)
    (info : FileInfo) (hlook : fs.lookupFile p = some info)
    (harch : pyLower (pySuffix (lastName p)) ∈ [".rar", ".zip", ".gz", ".tar"]) :
    extractStep root (fs, log) p =
      extractArchive (fs.mkdirExistOk (root ++ ["Archives", pyStem (lastName p)])) log p
        (root ++ ["Archives", pyStem (lastName p)]) info := by
  have hlook2 : (fs.mkdirExistOk (root ++ ["Archives", pyStem (lastName p)])).lookupFile p
      = some info := by
    unfold FS.mkdirExistOk
    split <;> exact hlook
  unfold extractStep
  dsimp only
  simp only [List.mem_cons, List.not_mem_nil, or_false] at harch
  rcases harch with h | h | h | h
  · rw [h, if_pos (by decide), hlook2]
  · rw [h, if_neg (by decide), if_pos (by decide), hlook2]
  · rw [h, if_neg (by decide), if_pos (by decide), hlook2]
  · rw [h, if_neg (by decide), if_pos (by decide), hlook2]

theorem lookup_map_members (subdir : FsPath) (members : List String) (m : String)
    (hm : m ∈ members) :
    (members.map fun m2 => (subdir ++ [m2], ({} : FileInfo))).lookup (subdir ++ [m])
      = some {} := by
  induction members with
  | nil => cases hm
  | cons a rest ih =>
    rw [List.map_cons, List.lookup_cons]
    by_cases ha : subdir ++ [m] = subdir ++ [a]
    · rw [beq_iff_eq.mpr ha]
    · rw [beq_eq_false_iff_ne.mpr ha]
      apply ih
      rcases List.mem_cons.mp hm with rfl | h2
      · exact absurd rfl ha
      · exact h2

theorem lookup_map_members_none (subdir : FsPath) (members : List String) (p : FsPath)
    (hp : p ∉ members.map fun m => subdir ++ [m]) :
    (members.map fun m2 => (subdir ++ [m2], ({} : FileInfo))).lookup p = none := by
  rw [List.lookup_eq_none_iff]
  intro q hq
  simp only [List.mem_map] at hq
  obtain ⟨m, hm, rfl⟩ := hq
  simp only [bne_iff_ne, ne_eq]
  intro heq
  exact hp (by rw [heq]; exact List.mem_map_of_mem _ hm)

/-- C5: for an archive-suffixed candidate, on extraction failure (a corrupt
entry) the loop reports the failure naming the offending path, leaves every
file — the archive included — untouched, keeps the created subfolder, and
the fold continues with the remaining candidates; the archive entry
disappears only in the success case, and there its members have been written
into its subfolder. -/
theorem extract_failure_isolated (root : FsPath) (fs : FS) (log : List String)
    (p : FsPath) (info : FileInfo)
    (hlook : fs.lookupFile p = some info)
    (harch : pyLower (pySuffix (lastName p)) ∈ [".rar", ".zip", ".gz", ".tar"]) :
    (info.corrupt = true →
      (extractStep root (fs, log) p).1.files = fs.files ∧
      (extractStep root (fs, log) p).1.dirs.contains
        (root ++ ["Archives", pyStem (lastName p)]) = true ∧
      (extractStep root (fs, log) p).2 =
        log ++ ["Error extracting " ++ pathStr p, "Skipping file: " ++ pathStr p]) ∧
    (info.corrupt = false →
      (∀ m ∈ info.members, (extractStep root (fs, log) p).1.lookupFile
        ((root ++ ["Archives", pyStem (lastName p)]) ++ [m]) = some {}) ∧
      (p ∉ info.members.map (fun m => (root ++ ["Archives", pyStem (lastName p)]) ++ [m]) →
        (extractStep root (fs, log) p).1.lookupFile p = none)) ∧
    (∀ rest : List FsPath, List.foldl (extractStep root) (fs, log) (p :: rest) =
      List.foldl (extractStep root) (extractStep root (fs, log) p) rest) := by
  refine ⟨?_, ?_, fun rest => rfl⟩
  · intro hc
    rw [extractStep_arch root fs log p info hlook harch]
    unfold extractArchive
    rw [if_pos hc]
    exact ⟨files_mkdirExistOk fs _, mkdirExistOk_contains fs _, rfl⟩
  · intro hc
    rw [extractStep_arch root fs log p info hlook harch]
    unfold extractArchive
    rw [if_neg (by simp [hc])]
    constructor
    · intro m hm
      unfold FS.lookupFile
      dsimp only
      rw [List.lookup_append, lookup_map_members _ info.members m hm]
      rfl
    · intro hp
      unfold FS.lookupFile
      dsimp only
      rw [List.lookup_append, lookup_map_members_none _ info.members p hp]
      rw [files_mkdirExistOk fs _, lookup_filter_bne fs.files p]
      rfl


/-- Witness for C5 on `fsBad`: the corrupt archive survives, the subfolder
stays, the two error lines name the path. -/
theorem extract_failure_isolated_witness :
    fsBad.lookupFile ["r", "Archives", "bad.zip"] = some { corrupt := true } ∧
    pyLower (pySuffix (lastName ["r", "Archives", "bad.zip"])) ∈
      [".rar", ".zip", ".gz", ".tar"] ∧
    ((extractStep ["r"] (fsBad, []) ["r", "Archives", "bad.zip"]).1.files = fsBad.files ∧
      (extractStep ["r"] (fsBad, []) ["r", "Archives", "bad.zip"]).1.dirs.contains
        (["r"] ++ ["Archives", pyStem (lastName ["r", "Archives", "bad.zip"])]) = true ∧
      (extractStep ["r"] (fsBad, []) ["r", "Archives", "bad.zip"]).2 =
        [] ++ ["Error extracting " ++ pathStr ["r", "Archives", "bad.zip"],
          "Skipping file: " ++ pathStr ["r", "Archives", "bad.zip"]]) :=
  ⟨by decide, by decide,
    (extract_failure_isolated ["r"] fsBad [] ["r", "Archives", "bad.zip"]
      { corrupt := true } (by decide) (by decide)).1 rfl⟩

/-- The subfolder named after the candidate's stem is created by the loop
body, whatever the candidate's extension. -/
theorem extractStep_creates_subdir (root : FsPath) (st : FS × List String) (p : FsPath) :
    (extractStep root st p).1.dirs.contains
      (root ++ ["Archives", pyStem (lastName p)]) = true := by
  rcases st with ⟨gfs, glog⟩
  unfold extractStep extractArchive
  dsimp only
  repeat' split
  all_goals exact mkdirExistOk_contains gfs _

/-- The loop body never removes a directory. -/
theorem dirs_mono_extractStep (root : FsPath) (st : FS × List String) (p d : FsPath)
    (h : st.1.dirs.contains d = true) :
    (extractStep root st p).1.dirs.contains d = true := by
  rcases st with ⟨gfs, glog⟩
  have hm : (gfs.mkdirExistOk (root ++ ["Archives", pyStem (lastName p)])).dirs.contains d
      = true := by
    unfold FS.mkdirExistOk
    split
    · exact h
    · rw [List.contains_cons]
      simp only [h, Bool.or_true]
  unfold extractStep extractArchive
  dsimp only
  repeat' split
  all_goals exact hm

theorem dirs_mono_foldl (root : FsPath) (l : List FsPath) (st : FS × List String)
    (d : FsPath) (h : st.1.dirs.contains d = true) :
    (l.foldl (extractStep root) st).1.dirs.contains d = true := by
  induction l generalizing st with
  | nil => exact h
  | cons q rest ih => exact ih _ (dirs_mono_extractStep root st q d h)

theorem subdir_after_foldl (root : FsPath) (l : List FsPath) (st : FS × List String)
    (p : FsPath) (hp : p ∈ l) :
    (l.foldl (extractStep root) st).1.dirs.contains
      (root ++ ["Archives", pyStem (lastName p)]) = true := by
  induction l generalizing st with
  | nil => cases hp
  | cons q rest ih =>
    rcases List.mem_cons.mp hp with rfl | h2
    · exact dirs_mono_foldl root rest _ _ (extractStep_creates_subdir root st p)
    · exact ih _ h2

/-- C6 as amended: the per-archive subfolder `Archives/<stem>` is created for
every glob candidate — every file under the root whose name contains a dot,
whatever its extension, not only archive types — while extraction and
deletion apply exactly to the archive suffixes: a candidate of any other
extension leaves the files and the log untouched. -/
theorem extract_subfolder_for_every_candidate (root : FsPath) (fs : FS) :
    (∀ p ∈ globDotStar root fs,
      (extract_and_move_archives root fs).1.dirs.contains
        (root ++ ["Archives", pyStem (lastName p)]) = true) ∧
    (∀ st : FS × List String, ∀ p : FsPath,
      (extractStep root st p).1.dirs.contains
        (root ++ ["Archives", pyStem (lastName p)]) = true) ∧
    (∀ st : FS × List String, ∀ p : FsPath,
      pyLower (pySuffix (lastName p)) ∉ [".rar", ".zip", ".gz", ".tar"] →
      (extractStep root st p).1.files = st.1.files ∧ (extractStep root st p).2 = st.2) := by
  refine ⟨?_, fun st p => extractStep_creates_subdir root st p, ?_⟩
  · intro p hp
    exact subdir_after_foldl root _ _ p hp
  · intro st p hn
    rcases st with ⟨gfs, glog⟩
    have h1 : (pyLower (pySuffix (lastName p)) == ".rar") = false := by
      apply beq_eq_false_iff_ne.mpr
      intro h
      exact hn (by rw [h]; simp)
    have h2 : ([".zip", ".gz", ".tar"].contains (pyLower (pySuffix (lastName p)))) = false := by
      rw [Bool.eq_false_iff]
      intro hc
      apply hn
      have hmem : pyLower (pySuffix (lastName p)) ∈ [".zip", ".gz", ".tar"] :=
        List.elem_iff.mp hc
      simp only [List.mem_cons, List.not_mem_nil, or_false] at hmem ⊢
      tauto
    unfold extractStep
    dsimp only
    rw [h1, if_neg (by simp), h2, if_neg (by simp)]
    exact ⟨files_mkdirExistOk gfs _, rfl⟩


/-- C6 counterexample: `notes.txt` carries no archive extension, yet the run
creates the subfolder `home/Archives/notes` for it — refuting the claim that
a subfolder is created only for archive-typed files. -/
theorem extract_subfolder_counterexample :
    pyLower (pySuffix (lastName ["home", "Archives", "notes.txt"])) ∉
      [".zip", ".gz", ".tar", ".rar"] ∧
    (extract_and_move_archives ["home"] fsNotes).1.dirs.contains
      ["home", "Archives", "notes"] = true :=
  ⟨by decide, by decide⟩

/-- Witness for the amended C6 on `fsNotes`. -/
theorem extract_subfolder_for_every_candidate_witness :
    ["home", "Archives", "notes.txt"] ∈ globDotStar ["home"] fsNotes ∧
    (extract_and_move_archives ["home"] fsNotes).1.dirs.contains
      (["home"] ++ ["Archives", pyStem (lastName ["home", "Archives", "notes.txt"])]) = true ∧
    pyLower (pySuffix (lastName ["home", "Archives", "notes.txt"])) ∉
      [".rar", ".zip", ".gz", ".tar"] ∧
    (extractStep ["home"] (fsNotes, []) ["home", "Archives", "notes.txt"]).1.files
      = fsNotes.files :=
  ⟨by decide,
    (extract_subfolder_for_every_candidate ["home"] fsNotes).1
      ["home", "Archives", "notes.txt"] (by decide),
    by decide,
    ((extract_subfolder_for_every_candidate ["home"] fsNotes).2.2
      (fsNotes, []) ["home", "Archives", "notes.txt"] (by decide)).1⟩

end BotHelper
